import Mathlib

/-!
Verification of the motor-control firmware in src/motors/src/main.cpp.

The firmware decodes 4-byte serial frames (start marker 0xAA, command byte,
data byte, end marker 0x55) into target angles for a stepper motor and a
servo, then moves each motor toward its target once per loop tick.

Modelling conventions:
- The C float arithmetic is embedded over the rationals.  All reachable
  angle values are small rationals (integers and multiples of 9/5), far
  from every comparison threshold, so the rational embedding is exact for
  the behaviours stated here.
- Assignment of a nonnegative float expression to a C int truncates toward
  zero, which on nonnegative values coincides with the floor.
- The serial stream is a list of received bytes; Serial.read consumes the
  head.  Serial.available >= 4 corresponds to the list having at least 4
  elements.
- Writes to Serial (diagnostics) are modelled as an optional output value;
  the write to the physical servo is modelled as an optional written angle
  (the 15 ms settle delay happens exactly when that write happens).
-/

namespace Sunkar

/-- Arduino abs macro on rationals: `(x > 0) ? x : -x`. -/
def absC (x : ℚ) : ℚ := if 0 < x then x else -x

/-- Arduino min macro on rationals: `(a < b) ? a : b`. -/
def minC (a b : ℚ) : ℚ := if a < b then a else b

/-- Arduino constrain macro on rationals:
`(amt < low) ? low : ((amt > high) ? high : amt)`. -/
def constrainQ (x lo hi : ℚ) : ℚ :=
  if x < lo then lo else if hi < x then hi else x

/-- Arduino constrain macro on C ints. -/
def constrainZ (x lo hi : ℤ) : ℤ :=
  if x < lo then lo else if hi < x then hi else x

/-- Motor parameter: const int stepsPerRevolution = 200. -/
def stepsPerRevolution : ℚ := 200

/-- Motor parameter: const int stepperMinAngle = 0. -/
def stepperMinAngle : ℚ := 0

/-- Motor parameter: const int stepperMaxAngle = 270. -/
def stepperMaxAngle : ℚ := 270

/-- Motor parameter: const int servoMinAngle = 0. -/
def servoMinAngle : ℤ := 0

/-- Motor parameter: const int servoMaxAngle = 60. -/
def servoMaxAngle : ℤ := 60

/-- Motor parameter: const int maxStepIncrement = 2 (degrees per loop). -/
def maxStepIncrement : ℚ := 2

/-- One invocation of moveStepperToAngle.  Input: the current stepper angle
and the requested target; output: the updated current angle and the number
of step pulses emitted on STEP_PIN.  Mirrors main.cpp lines 54-81. -/
def moveStepperToAngle (current targetIn : ℚ) : ℚ × ℤ :=
  let target := constrainQ targetIn stepperMinAngle stepperMaxAngle
  let angleDiff := target - current
  if absC angleDiff < 1/2 then (current, 0)
  else
    let stepsToMove0 : ℤ := ⌊minC (absC angleDiff) maxStepIncrement * stepsPerRevolution / 360⌋
    let stepsToMove : ℤ := if stepsToMove0 = 0 then 1 else stepsToMove0
    let updated :=
      if 0 < angleDiff then
        let c := current + stepsToMove * 360 / stepsPerRevolution
        if target < c then target else c
      else
        let c := current - stepsToMove * 360 / stepsPerRevolution
        if c < target then target else c
    (constrainQ updated stepperMinAngle stepperMaxAngle, stepsToMove)

/-- One invocation of moveServoToAngle.  Input: the current servo angle and
the requested target; output: the updated current angle and the angle
written to the servo this tick, if any.  Mirrors main.cpp lines 83-90. -/
def moveServoToAngle (current targetIn : ℤ) : ℤ × Option ℤ :=
  let target := constrainZ targetIn servoMinAngle servoMaxAngle
  if target ≠ current then (target, some target) else (current, none)

/-- Diagnostic line printed by processSerialCommand. -/
inductive SerialOutput where
  | servoTarget : ℤ → SerialOutput
  | stepperTarget : ℚ → SerialOutput
  | unknownCommand : ℕ → SerialOutput
deriving DecidableEq

/-- The two target variables written by the serial decoder. -/
structure MotorState where
  targetStepperAngle : ℚ
  targetServoAngle : ℤ
deriving DecidableEq

/-- One invocation of processSerialCommand.  Input: the pending serial
bytes and the current targets; output: updated targets, remaining serial
bytes, and the diagnostic printed, if any.  Mirrors main.cpp lines 92-117:
if fewer than 4 bytes are available nothing is read; otherwise the first
byte is read and compared with START_BYTE, and only on a match are the
three following bytes read. -/
def processSerialCommand (buf : List ℕ) (st : MotorState) :
    MotorState × List ℕ × Option SerialOutput :=
  match buf with
  | b0 :: cmd :: data :: b3 :: rest =>
      if b0 = 0xAA then
        if b3 = 0x55 then
          if cmd = 0x01 then
            ({ st with targetServoAngle := (data : ℤ) }, rest,
              some (SerialOutput.servoTarget (data : ℤ)))
          else if cmd = 0x02 then
            ({ st with targetStepperAngle := (data : ℚ) }, rest,
              some (SerialOutput.stepperTarget (data : ℚ)))
          else (st, rest, some (SerialOutput.unknownCommand cmd))
        else (st, rest, none)
      else (st, cmd :: data :: b3 :: rest, none)
  | _ => (st, buf, none)

/-- Iterating the stepper controller with a fixed target, as loop() does
while no new frame arrives. -/
def iterateStepper (target : ℚ) (current : ℚ) : ℕ → ℚ
  | 0 => current
  | n + 1 => iterateStepper target (moveStepperToAngle current target).1 n

/-! Helper lemmas about the Arduino macros. -/

lemma absC_eq_abs (x : ℚ) : absC x = |x| := by
  unfold absC
  split_ifs with h
  · exact (abs_of_pos h).symm
  · exact (abs_of_nonpos (not_lt.mp h)).symm

lemma minC_eq_min (a b : ℚ) : minC a b = min a b := by
  unfold minC
  split_ifs with h
  · exact (min_eq_left h.le).symm
  · exact (min_eq_right (not_lt.mp h)).symm

lemma constrainQ_of_mem (x lo hi : ℚ) (h1 : lo ≤ x) (h2 : x ≤ hi) :
    constrainQ x lo hi = x := by
  unfold constrainQ
  split_ifs with ha hb
  · linarith
  · linarith
  · rfl

lemma constrainQ_mem (x lo hi : ℚ) (h : lo ≤ hi) :
    lo ≤ constrainQ x lo hi ∧ constrainQ x lo hi ≤ hi := by
  unfold constrainQ
  split_ifs with ha hb
  · exact ⟨le_refl _, h⟩
  · exact ⟨h, le_refl _⟩
  · exact ⟨not_lt.mp ha, not_lt.mp hb⟩

lemma constrainZ_of_mem (x lo hi : ℤ) (h1 : lo ≤ x) (h2 : x ≤ hi) :
    constrainZ x lo hi = x := by
  unfold constrainZ
  split_ifs with ha hb
  · omega
  · omega
  · rfl

lemma constrainZ_mem (x lo hi : ℤ) (h : lo ≤ hi) :
    lo ≤ constrainZ x lo hi ∧ constrainZ x lo hi ≤ hi := by
  unfold constrainZ
  split_ifs with ha hb
  · exact ⟨le_refl _, h⟩
  · exact ⟨h, le_refl _⟩
  · omega

/-- With the firmware constants, the truncated step count is 0 or 1, and the
floor-to-one correction makes it exactly 1 on every moving tick. -/
lemma stepsToMove_one (x : ℚ) (hx : 0 ≤ x) :
    (if (⌊min x 2 * 200 / 360⌋ : ℤ) = 0 then (1 : ℤ)
      else ⌊min x 2 * 200 / 360⌋) = 1 := by
  have h1 : 0 ≤ min x 2 := le_min hx (by norm_num)
  have h2 : min x 2 ≤ 2 := min_le_right x 2
  have hval0 : 0 ≤ min x 2 * 200 / 360 :=
    div_nonneg (mul_nonneg h1 (by norm_num)) (by norm_num)
  have hval2 : min x 2 * 200 / 360 < 2 := by
    rw [div_lt_iff₀ (by norm_num : (0:ℚ) < 360)]
    nlinarith
  have hf0 : 0 ≤ (⌊min x 2 * 200 / 360⌋ : ℤ) := Int.floor_nonneg.mpr hval0
  have hf2 : (⌊min x 2 * 200 / 360⌋ : ℤ) < 2 :=
    Int.floor_lt.mpr (by exact_mod_cast hval2)
  split_ifs with h
  · rfl
  · omega

/-- Behaviour of one stepper tick when the clamped target is at least half a
degree above the current angle: the angle advances by 9/5 degrees, clamped
so as not to pass the target, and one pulse is emitted. -/
lemma moveStepper_pos (c t : ℚ) (hc : 0 ≤ c)
    (hd : 1/2 ≤ constrainQ t 0 270 - c) :
    moveStepperToAngle c t = (min (c + 9/5) (constrainQ t 0 270), 1) := by
  simp only [moveStepperToAngle, stepperMinAngle, stepperMaxAngle,
    stepsPerRevolution, maxStepIncrement, absC_eq_abs, minC_eq_min]
  set tc := constrainQ t 0 270 with htc_def
  have htc : 0 ≤ tc ∧ tc ≤ 270 := by
    rw [htc_def]; exact constrainQ_mem t 0 270 (by norm_num)
  have habs : |tc - c| = tc - c := abs_of_pos (by linarith)
  rw [habs, if_neg (by linarith : ¬ tc - c < 1/2)]
  rw [stepsToMove_one (tc - c) (by linarith)]
  rw [if_pos (by linarith : (0:ℚ) < tc - c)]
  have hstep : ((1 : ℤ) : ℚ) * 360 / 200 = 9/5 := by norm_num
  rw [hstep]
  rcases lt_or_le tc (c + 9/5) with hcase | hcase
  · rw [if_pos hcase, min_eq_right hcase.le,
      constrainQ_of_mem tc 0 270 (by linarith) (by linarith)]
  · rw [if_neg (not_lt.mpr hcase), min_eq_left hcase,
      constrainQ_of_mem (c + 9/5) 0 270 (by linarith) (by linarith)]

/-- Behaviour of one stepper tick when the clamped target is at least half a
degree below the current angle: symmetric to moveStepper_pos. -/
lemma moveStepper_neg (c t : ℚ) (hc : c ≤ 270)
    (hd : 1/2 ≤ c - constrainQ t 0 270) :
    moveStepperToAngle c t = (max (c - 9/5) (constrainQ t 0 270), 1) := by
  simp only [moveStepperToAngle, stepperMinAngle, stepperMaxAngle,
    stepsPerRevolution, maxStepIncrement, absC_eq_abs, minC_eq_min]
  set tc := constrainQ t 0 270 with htc_def
  have htc : 0 ≤ tc ∧ tc ≤ 270 := by
    rw [htc_def]; exact constrainQ_mem t 0 270 (by norm_num)
  have habs : |tc - c| = c - tc := by
    rw [abs_of_nonpos (by linarith)]; ring
  rw [habs, if_neg (by linarith : ¬ c - tc < 1/2)]
  rw [stepsToMove_one (c - tc) (by linarith)]
  rw [if_neg (by linarith : ¬ (0:ℚ) < tc - c)]
  have hstep : ((1 : ℤ) : ℚ) * 360 / 200 = 9/5 := by norm_num
  rw [hstep]
  rcases lt_or_le (c - 9/5) tc with hcase | hcase
  · rw [if_pos hcase, max_eq_right hcase.le,
      constrainQ_of_mem tc 0 270 (by linarith) (by linarith)]
  · rw [if_neg (not_lt.mpr hcase), max_eq_left hcase,
      constrainQ_of_mem (c - 9/5) 0 270 (by linarith) (by linarith)]

/-- Behaviour of one stepper tick when the angle difference is under half a
degree: nothing happens and no pulse is emitted. -/
lemma moveStepper_noop (c t : ℚ)
    (hd : |constrainQ t 0 270 - c| < 1/2) :
    moveStepperToAngle c t = (c, 0) := by
  simp only [moveStepperToAngle, stepperMinAngle, stepperMaxAngle,
    stepsPerRevolution, maxStepIncrement, absC_eq_abs, minC_eq_min]
  rw [if_pos hd]

/-- Behaviour of one servo tick, expressed through the clamped target. -/
lemma moveServo_cases (c t : ℤ) :
    moveServoToAngle c t =
      if constrainZ t 0 60 = c then (c, none)
      else (constrainZ t 0 60, some (constrainZ t 0 60)) := by
  simp only [moveServoToAngle, servoMinAngle, servoMaxAngle]
  by_cases h : constrainZ t 0 60 = c
  · rw [if_neg (not_not_intro h), if_pos h]
  · rw [if_pos h, if_neg h]

/-! Claim theorems. -/

/-- C1 counterexample: with the 5 bytes [0x00, 0xAA, 0x02, 200, 0x55]
pending (first byte not 0xAA), the claim predicts that 4 bytes are
consumed, i.e. that the remaining stream is the input with 4 bytes
dropped; in fact only the single bad byte is consumed, so the following
frame stays intact. -/
theorem C1_counterexample :
    4 ≤ ([0, 0xAA, 0x02, 200, 0x55] : List ℕ).length ∧
    (0 : ℕ) ≠ 0xAA ∧
    (processSerialCommand [0, 0xAA, 0x02, 200, 0x55] ⟨0, 0⟩).2.1 ≠
      List.drop 4 [0, 0xAA, 0x02, 200, 0x55] := by
  refine ⟨by decide, by decide, ?_⟩
  decide

/-- C1 (amended): with at least 4 bytes available and a first byte that is
not 0xAA, the decoder consumes exactly 1 byte (the bad start byte), the 3
subsequent reads do not occur, no frame is produced, and no target state
changes. -/
theorem C1_theorem (b0 b1 b2 b3 : ℕ) (rest : List ℕ) (st : MotorState)
    (h : b0 ≠ 0xAA) :
    processSerialCommand (b0 :: b1 :: b2 :: b3 :: rest) st =
      (st, b1 :: b2 :: b3 :: rest, none) := by
  simp only [processSerialCommand, if_neg h]

/-- Witness for C1 at the bytes [0x00, 0xAA, 0x02, 200, 0x55]. -/
theorem C1_witness :
    processSerialCommand [0, 0xAA, 0x02, 200, 0x55] ⟨0, 0⟩ =
      (⟨0, 0⟩, [0xAA, 0x02, 200, 0x55], none) :=
  C1_theorem 0 0xAA 0x02 200 [0x55] ⟨0, 0⟩ (by decide)

/-- C6: a 4-byte frame with a good start marker but a bad end marker is
dropped silently: neither targetStepperAngle nor targetServoAngle
changes (and no diagnostic is printed). -/
theorem C6_theorem (b1 b2 b3 : ℕ) (rest : List ℕ) (st : MotorState)
    (h : b3 ≠ 0x55) :
    processSerialCommand (0xAA :: b1 :: b2 :: b3 :: rest) st =
      (st, rest, none) := by
  simp [processSerialCommand, if_neg h]

/-- Witness for C6 at the frame [0xAA, 0x02, 200, 0x00]. -/
theorem C6_witness :
    processSerialCommand [0xAA, 0x02, 200, 0x00] ⟨0, 0⟩ = (⟨0, 0⟩, [], none) :=
  C6_theorem 0x02 200 0x00 [] ⟨0, 0⟩ (by decide)

/-- C8: a well-framed message whose command byte is neither 0x01 nor 0x02
changes neither target; its only effect is the unknown-command
diagnostic. -/
theorem C8_theorem (cmd data : ℕ) (rest : List ℕ) (st : MotorState)
    (h1 : cmd ≠ 0x01) (h2 : cmd ≠ 0x02) :
    processSerialCommand (0xAA :: cmd :: data :: 0x55 :: rest) st =
      (st, rest, some (SerialOutput.unknownCommand cmd)) := by
  simp [processSerialCommand, if_neg h1, if_neg h2]

/-- Witness for C8 at the frame [0xAA, 0x03, 7, 0x55]. -/
theorem C8_witness :
    processSerialCommand [0xAA, 0x03, 7, 0x55] ⟨0, 0⟩ =
      (⟨0, 0⟩, [], some (SerialOutput.unknownCommand 0x03)) :=
  C8_theorem 0x03 7 [] ⟨0, 0⟩ (by decide) (by decide)

/-- C5: for a servo target outside [0, 60], the servo tick either writes
nothing (when already at the clamped boundary) or writes the clamped
boundary value (0 for negative targets, 60 for targets above 60); it never
writes the raw input value. -/
theorem C5_theorem (c t : ℤ) (h : t < 0 ∨ 60 < t) :
    ((moveServoToAngle c t).2 = none ∨
      (moveServoToAngle c t).2 = some (if t < 0 then 0 else 60)) ∧
    (moveServoToAngle c t).2 ≠ some t := by
  have htc : constrainZ t 0 60 = if t < 0 then 0 else 60 := by
    unfold constrainZ
    split_ifs <;> omega
  rw [moveServo_cases]
  by_cases hc : constrainZ t 0 60 = c
  · rw [if_pos hc]
    exact ⟨Or.inl rfl, by simp⟩
  · rw [if_neg hc]
    refine ⟨Or.inr ?_, ?_⟩
    · simp [htc]
    · simp only [htc, ne_eq, Option.some.injEq]
      split_ifs <;> omega

/-- Witness for C5 at current angle 0 and raw target 100. -/
theorem C5_witness :
    ((moveServoToAngle 0 100).2 = none ∨
      (moveServoToAngle 0 100).2 = some (if (100:ℤ) < 0 then 0 else 60)) ∧
    (moveServoToAngle 0 100).2 ≠ some 100 :=
  C5_theorem 0 100 (Or.inr (by decide))

/-- C7 counterexample: the valid frame [0xAA, 0x01, 200, 0x55] stores the
raw data byte 200 into targetServoAngle, so targetServoAngle is not
constrained to [0, 60]. -/
theorem C7_counterexample :
    (processSerialCommand [0xAA, 0x01, 200, 0x55] ⟨0, 0⟩).1.targetServoAngle = 200 ∧
    ¬ (processSerialCommand [0xAA, 0x01, 200, 0x55] ⟨0, 0⟩).1.targetServoAngle ≤ 60 := by
  refine ⟨by decide, ?_⟩
  decide

/-- C7 (amended): currentServoAngle always stays in [0, 60] (the servo tick
clamps before writing), but targetServoAngle holds the raw received data
byte and is only clamped at application time. -/
theorem C7_theorem (c t : ℤ) (h1 : 0 ≤ c) (h2 : c ≤ 60) :
    0 ≤ (moveServoToAngle c t).1 ∧ (moveServoToAngle c t).1 ≤ 60 := by
  rw [moveServo_cases]
  have hmem := constrainZ_mem t 0 60 (by omega)
  split_ifs with hc
  · exact ⟨h1, h2⟩
  · exact hmem

/-- Witness for C7 at current angle 30 and raw target 200. -/
theorem C7_witness :
    0 ≤ (moveServoToAngle 30 200).1 ∧ (moveServoToAngle 30 200).1 ≤ 60 :=
  C7_theorem 30 200 (by decide) (by decide)

/-- C2 counterexample: the frame [0xAA, 0x02, 200, 0x55] does set the
stepper target to 200, but one tick from current angle 0 moves the angle
to 9/5 = 1.8 degrees, not by maxStepIncrement = 2 degrees as the claim
states. -/
theorem C2_counterexample :
    (processSerialCommand [0xAA, 0x02, 200, 0x55] ⟨0, 0⟩).1.targetStepperAngle = 200 ∧
    (moveStepperToAngle 0 200).1 - 0 ≠ maxStepIncrement := by
  have h200 : constrainQ (200 : ℚ) 0 270 = 200 :=
    constrainQ_of_mem 200 0 270 (by norm_num) (by norm_num)
  have hmv : moveStepperToAngle 0 200 = (9/5, 1) := by
    rw [moveStepper_pos 0 200 le_rfl (by rw [h200]; norm_num), h200]
    norm_num
  refine ⟨by decide, ?_⟩
  rw [hmv, maxStepIncrement]
  norm_num

/-- C2 (amended): the frame [0xAA, 0x02, 200, 0x55] sets the stepper
target to 200; starting from currentStepperAngle = 0, one tick moves the
angle by exactly 360/stepsPerRevolution = 9/5 = 1.8 degrees toward 200
(not by the full maxStepIncrement of 2), emitting exactly 1 step pulse:
the step count is computed by C truncation of
min(absDiff, maxStepIncrement) * stepsPerRevolution / 360 = 10/9 to 1
(with the floor-to-1 correction for a zero count), not by rounding. -/
theorem C2_theorem :
    (processSerialCommand [0xAA, 0x02, 200, 0x55] ⟨0, 0⟩).1.targetStepperAngle = 200 ∧
    moveStepperToAngle 0 200 = (9/5, 1) ∧
    (9 : ℚ)/5 = 360 / stepsPerRevolution := by
  have h200 : constrainQ (200 : ℚ) 0 270 = 200 :=
    constrainQ_of_mem 200 0 270 (by norm_num) (by norm_num)
  refine ⟨by decide, ?_, by norm_num [stepsPerRevolution]⟩
  rw [moveStepper_pos 0 200 le_rfl (by rw [h200]; norm_num), h200]
  norm_num

/-- C4: a stepper tick from a current angle within [0, 270] keeps the
angle in [0, 270], changes it by at most maxStepIncrement = 2 degrees, and
moves it monotonically toward the (clamped) target: the new angle lies
between the old angle and the target, so the tick never overshoots and
never moves away. -/
theorem C4_theorem (c t : ℚ) (h1 : 0 ≤ c) (h2 : c ≤ 270) :
    (0 ≤ (moveStepperToAngle c t).1 ∧ (moveStepperToAngle c t).1 ≤ 270) ∧
    |(moveStepperToAngle c t).1 - c| ≤ maxStepIncrement ∧
    ((c ≤ (moveStepperToAngle c t).1 ∧
        (moveStepperToAngle c t).1 ≤ constrainQ t 0 270) ∨
      (constrainQ t 0 270 ≤ (moveStepperToAngle c t).1 ∧
        (moveStepperToAngle c t).1 ≤ c)) := by
  have htc := constrainQ_mem t 0 270 (by norm_num)
  have hmax : maxStepIncrement = 2 := rfl
  rcases lt_or_le (|constrainQ t 0 270 - c|) (1/2) with hlt | hge
  · rw [moveStepper_noop c t hlt]
    dsimp only
    refine ⟨⟨h1, h2⟩, by rw [hmax]; simp, ?_⟩
    rcases le_or_lt c (constrainQ t 0 270) with hct | hct
    · exact Or.inl ⟨le_refl c, hct⟩
    · exact Or.inr ⟨hct.le, le_refl c⟩
  · rcases le_or_lt c (constrainQ t 0 270) with hct | hct
    · have hd : 1/2 ≤ constrainQ t 0 270 - c := by
        rwa [abs_of_nonneg (by linarith)] at hge
      rw [moveStepper_pos c t h1 hd]
      dsimp only
      refine ⟨⟨le_min (by linarith) htc.1, (min_le_right _ _).trans htc.2⟩, ?_, ?_⟩
      · rw [hmax]
        rcases min_cases (c + 9/5) (constrainQ t 0 270) with ⟨hme, hle⟩ | ⟨hme, hle⟩ <;>
          rw [hme, abs_le] <;> constructor <;> linarith
      · exact Or.inl ⟨le_min (by linarith) (by linarith), min_le_right _ _⟩
    · have hd : 1/2 ≤ c - constrainQ t 0 270 := by
        rw [abs_of_neg (by linarith)] at hge
        linarith
      rw [moveStepper_neg c t h2 hd]
      dsimp only
      refine ⟨⟨le_max_of_le_right htc.1, max_le (by linarith) htc.2⟩, ?_, ?_⟩
      · rw [hmax]
        rcases max_cases (c - 9/5) (constrainQ t 0 270) with ⟨hme, hle⟩ | ⟨hme, hle⟩ <;>
          rw [hme, abs_le] <;> constructor <;> linarith
      · exact Or.inr ⟨le_max_right _ _, max_le (by linarith) (by linarith)⟩

/-- Witness for C4 at current angle 0 and target 200. -/
theorem C4_witness :
    (0 ≤ (moveStepperToAngle 0 200).1 ∧ (moveStepperToAngle 0 200).1 ≤ 270) ∧
    |(moveStepperToAngle 0 200).1 - 0| ≤ maxStepIncrement ∧
    ((0 ≤ (moveStepperToAngle 0 200).1 ∧
        (moveStepperToAngle 0 200).1 ≤ constrainQ 200 0 270) ∨
      (constrainQ 200 0 270 ≤ (moveStepperToAngle 0 200).1 ∧
        (moveStepperToAngle 0 200).1 ≤ 0)) :=
  C4_theorem 0 200 (by norm_num) (by norm_num)

/-- C9: idempotence after convergence.  Once the stepper is within half a
degree of a target in range, a tick with that same target emits no pulses
and leaves the angle unchanged; once the servo current angle equals the
clamped target, a tick with that same target performs no actuator write
(and hence no settle delay). -/
theorem C9_theorem :
    (∀ c t : ℚ, 0 ≤ t → t ≤ 270 → |t - c| < 1/2 →
      moveStepperToAngle c t = (c, 0)) ∧
    (∀ c t : ℤ, constrainZ t 0 60 = c → moveServoToAngle c t = (c, none)) := by
  constructor
  · intro c t ht1 ht2 hd
    apply moveStepper_noop
    rwa [constrainQ_of_mem t 0 270 ht1 (by linarith)]
  · intro c t h
    rw [moveServo_cases, if_pos h]

/-- Witness for C9: stepper at 100 with target 100.2, servo at 60 with raw
target 200 (clamped to 60). -/
theorem C9_witness :
    moveStepperToAngle 100 (501/5) = (100, 0) ∧
    moveServoToAngle 60 200 = (60, none) :=
  ⟨C9_theorem.1 100 (501/5) (by norm_num) (by norm_num) (by rw [abs_lt]; norm_num),
    C9_theorem.2 60 200 (by decide)⟩

/-- C10: with the firmware constants, every moving stepper tick (clamped
difference at least half a degree) from a current angle in [0, 270] emits
exactly 1 step pulse, never several, and changes the angle by at most
9/5 = 1.8 degrees: exactly 1.8 degrees unless the overshoot clamp snaps
the angle onto the target. -/
theorem C10_theorem (c t : ℚ) (h1 : 0 ≤ c) (h2 : c ≤ 270)
    (hmove : 1/2 ≤ |constrainQ t 0 270 - c|) :
    (moveStepperToAngle c t).2 = 1 ∧
    |(moveStepperToAngle c t).1 - c| ≤ 9/5 ∧
    (|(moveStepperToAngle c t).1 - c| = 9/5 ∨
      (moveStepperToAngle c t).1 = constrainQ t 0 270) := by
  rcases le_or_lt c (constrainQ t 0 270) with hct | hct
  · have hd : 1/2 ≤ constrainQ t 0 270 - c := by
      rwa [abs_of_nonneg (by linarith)] at hmove
    rw [moveStepper_pos c t h1 hd]
    dsimp only
    refine ⟨rfl, ?_, ?_⟩
    · rcases min_cases (c + 9/5) (constrainQ t 0 270) with ⟨hme, hle⟩ | ⟨hme, hle⟩ <;>
        rw [hme, abs_le] <;> constructor <;> linarith
    · rcases min_cases (c + 9/5) (constrainQ t 0 270) with ⟨hme, hle⟩ | ⟨hme, hle⟩
      · left
        rw [hme, abs_of_pos] <;> ring_nf <;> norm_num
      · right
        rw [hme]
  · have hd : 1/2 ≤ c - constrainQ t 0 270 := by
      rw [abs_of_neg (by linarith)] at hmove
      linarith
    rw [moveStepper_neg c t h2 hd]
    dsimp only
    refine ⟨rfl, ?_, ?_⟩
    · rcases max_cases (c - 9/5) (constrainQ t 0 270) with ⟨hme, hle⟩ | ⟨hme, hle⟩ <;>
        rw [hme, abs_le] <;> constructor <;> linarith
    · rcases max_cases (c - 9/5) (constrainQ t 0 270) with ⟨hme, hle⟩ | ⟨hme, hle⟩
      · left
        rw [hme, abs_of_neg] <;> ring_nf <;> norm_num
      · right
        rw [hme]

/-- Witness for C10 at current angle 0 and target 200. -/
theorem C10_witness :
    (moveStepperToAngle 0 200).2 = 1 ∧
    |(moveStepperToAngle 0 200).1 - 0| ≤ 9/5 ∧
    (|(moveStepperToAngle 0 200).1 - 0| = 9/5 ∨
      (moveStepperToAngle 0 200).1 = constrainQ 200 0 270) := by
  apply C10_theorem 0 200 (by norm_num) (by norm_num)
  rw [constrainQ_of_mem 200 0 270 (by norm_num) (by norm_num)]
  norm_num

/-- Once within half a degree of an in-range target, the stepper never
moves again, however many further ticks run. -/
lemma iterateStepper_stay (t c : ℚ) (h : |constrainQ t 0 270 - c| < 1/2) :
    ∀ n, iterateStepper t c n = c := by
  intro n
  induction n with
  | zero => rfl
  | succ n ih =>
      simp only [iterateStepper]
      rw [moveStepper_noop c t h]
      exact ih

/-- Convergence of the iterated stepper tick: if the distance to an
in-range target is at most 9/5 times n, then after n ticks the stepper is
within half a degree of the target. -/
lemma iterateStepper_conv (t : ℚ) (ht1 : 0 ≤ t) (ht2 : t ≤ 270) :
    ∀ n : ℕ, ∀ c : ℚ, 0 ≤ c → c ≤ 270 → |t - c| ≤ 9/5 * n →
      |t - iterateStepper t c n| < 1/2 := by
  have htcq : constrainQ t 0 270 = t := constrainQ_of_mem t 0 270 ht1 ht2
  intro n
  induction n with
  | zero =>
      intro c h1 h2 hd
      simp only [iterateStepper]
      have h0 : |t - c| ≤ 0 := by simpa using hd
      linarith
  | succ n ih =>
      intro c h1 h2 hd
      simp only [iterateStepper]
      rcases lt_or_le (|t - c|) (1/2) with hlt | hge
      · rw [moveStepper_noop c t (by rwa [htcq])]
        dsimp only
        rw [iterateStepper_stay t c (by rwa [htcq]) n]
        exact hlt
      · have hcast : |t - c| ≤ 9/5 * (n + 1 : ℚ) := by
          rw [Nat.cast_succ] at hd
          exact hd
        rcases le_or_lt c t with hct | hct
        · have hd1 : 1/2 ≤ constrainQ t 0 270 - c := by
            rw [htcq]
            rwa [abs_of_nonneg (by linarith)] at hge
          rw [moveStepper_pos c t h1 hd1, htcq]
          dsimp only
          have hdist : t - c ≤ 9/5 * (n + 1 : ℚ) := by
            rwa [abs_of_nonneg (by linarith)] at hcast
          rcases min_cases (c + 9/5) t with ⟨hme, hle⟩ | ⟨hme, hle⟩
          · rw [hme]
            apply ih (c + 9/5) (by linarith) (by linarith)
            rw [abs_of_nonneg (by linarith)]
            linarith
          · rw [hme]
            rw [iterateStepper_stay t t (by rw [htcq]; simp) n]
            simp
        · have hd1 : 1/2 ≤ c - constrainQ t 0 270 := by
            rw [htcq]
            rw [abs_of_neg (by linarith)] at hge
            linarith
          rw [moveStepper_neg c t h2 hd1, htcq]
          dsimp only
          have hdist : c - t ≤ 9/5 * (n + 1 : ℚ) := by
            rw [abs_of_neg (by linarith)] at hcast
            linarith
          rcases max_cases (c - 9/5) t with ⟨hme, hle⟩ | ⟨hme, hle⟩
          · rw [hme]
            apply ih (c - 9/5) (by linarith) (by linarith)
            rw [abs_of_nonpos (by linarith)]
            linarith
          · rw [hme]
            rw [iterateStepper_stay t t (by rw [htcq]; simp) n]
            simp

/-- While the stepper stays comfortably below a target of 200, each tick
adds exactly 9/5 degrees, so the trajectory is linear in the tick count. -/
lemma iterateStepper_linear :
    ∀ n : ℕ, ∀ c : ℚ, 0 ≤ c → c + 9/5 * n + 1/2 ≤ 200 →
      iterateStepper 200 c n = c + 9/5 * n := by
  have htcq : constrainQ (200 : ℚ) 0 270 = 200 :=
    constrainQ_of_mem 200 0 270 (by norm_num) (by norm_num)
  intro n
  induction n with
  | zero =>
      intro c h1 h2
      simp [iterateStepper]
  | succ n ih =>
      intro c h1 h2
      have hn : (0 : ℚ) ≤ 9/5 * n := by positivity
      rw [Nat.cast_succ] at h2
      have hd : 1/2 ≤ constrainQ (200 : ℚ) 0 270 - c := by
        rw [htcq]
        nlinarith
      simp only [iterateStepper]
      rw [moveStepper_pos c 200 h1 hd, htcq]
      dsimp only
      rw [min_eq_left (by nlinarith)]
      rw [ih (c + 9/5) (by linarith) (by linarith)]
      push_cast
      ring

/-- C3 counterexample: from current angle 0 to target 200 the claimed
tick bound is ceil(|200 - 0| / maxStepIncrement) = 100, but after 100
ticks the stepper has only reached 180 degrees, which is 20 degrees from
the target, not within half a degree. -/
theorem C3_counterexample :
    ⌈|(200 : ℚ) - 0| / maxStepIncrement⌉ = 100 ∧
    iterateStepper 200 0 100 = 180 ∧
    ¬ |(200 : ℚ) - iterateStepper 200 0 100| < 1/2 := by
  have hl : iterateStepper 200 0 100 = 180 := by
    have h := iterateStepper_linear 100 0 le_rfl (by norm_num)
    rw [h]
    norm_num
  refine ⟨?_, hl, ?_⟩
  · rw [maxStepIncrement]
    norm_num
  · rw [hl]
    rw [abs_lt]
    norm_num

/-- C3 (amended): for every target and starting angle in [0, 270],
iterating the stepper tick ceil(|target - current| / (9/5)) times brings
the current angle within half a degree of the target.  The per-tick
advance is 9/5 = 1.8 degrees (360/stepsPerRevolution), not the
maxStepIncrement bound of 2 used by the original claim. -/
theorem C3_theorem (t c : ℚ) (ht1 : 0 ≤ t) (ht2 : t ≤ 270)
    (hc1 : 0 ≤ c) (hc2 : c ≤ 270) :
    |t - iterateStepper t c (⌈|t - c| / (9/5)⌉.toNat)| < 1/2 := by
  apply iterateStepper_conv t ht1 ht2 _ c hc1 hc2
  have h0 : (0 : ℚ) ≤ |t - c| / (9/5) := div_nonneg (abs_nonneg _) (by norm_num)
  have hceil : (0 : ℤ) ≤ ⌈|t - c| / (9/5)⌉ := Int.ceil_nonneg h0
  have hle : |t - c| / (9/5) ≤ (⌈|t - c| / (9/5)⌉ : ℚ) := Int.le_ceil _
  have hcast : ((⌈|t - c| / (9/5)⌉.toNat : ℕ) : ℚ) = ((⌈|t - c| / (9/5)⌉ : ℤ) : ℚ) := by
    exact_mod_cast congrArg (fun z : ℤ => (z : ℚ)) (Int.toNat_of_nonneg hceil)
  rw [hcast]
  rw [div_le_iff₀ (by norm_num : (0 : ℚ) < 9/5)] at hle
  linarith

/-- Witness for C3 at target 200 and starting angle 0 (112 ticks). -/
theorem C3_witness :
    |(200 : ℚ) - iterateStepper 200 0 (⌈|(200 : ℚ) - 0| / (9/5)⌉.toNat)| < 1/2 :=
  C3_theorem 200 0 (by norm_num) (by norm_num) (by norm_num) (by norm_num)

end Sunkar
